import Mathlib

/-!
Verification of the FleetCast contact-window scheduler and position simulator
(src/backend/satellite_config.py) against its natural-language specification.

The Python source is shallowly embedded below.  Times (the iso-format
start_time / end_time / timestamp strings of the source, which compare
identically as strings and as parsed datetimes) are modelled as natural
numbers (minutes).  Python dictionaries are modelled as association lists
accessed by first match, which coincides with dictionary behaviour.  The
stable Python builtin sorted is modelled by List.insertionSort, which is the
canonical stable sort; its stability is proved explicitly below
(filter_insertionSort_key).  Fallible operations (KeyError on the schedule
dictionary, StopIteration on the capacity lookup, ZeroDivisionError,
malformed satellite identifiers) are modelled with Option / Except.
-/

namespace FleetCast

/-- A ground station record, as in the GROUND_STATIONS catalog of the source:
fields id, location, capacity, lon, lat. -/
structure GroundStation where
  id : String
  location : String
  capacity : Nat
  lon : Int
  lat : Int
  deriving DecidableEq, Repr

/-- A contact window as built by generate_contact_windows (without the
assigned key, which is added later by assign_contacts).  The iso-format time
strings of the source are modelled as minute counts. -/
structure ContactWindow where
  satellite_id : String
  ground_station_id : String
  start_time : Nat
  end_time : Nat
  timestamp : Nat
  distance : Rat
  datavolume : Nat
  priority : Nat
  deriving DecidableEq, Repr

/-- The sort key order used by assign_contacts:
sorted(contact_windows, key = lambda x: (x.priority, x.start_time)),
i.e. lexicographic order on the pair (priority, start_time). -/
def keyLE (a b : ContactWindow) : Prop :=
  a.priority < b.priority ∨ (a.priority = b.priority ∧ a.start_time ≤ b.start_time)

instance keyLE.decRel : DecidableRel keyLE := fun a b =>
  decidable_of_iff
    (a.priority < b.priority ∨ (a.priority = b.priority ∧ a.start_time ≤ b.start_time))
    Iff.rfl

instance keyLE.isTotal : IsTotal ContactWindow keyLE :=
  ⟨fun a b => by unfold keyLE; omega⟩

instance keyLE.isTrans : IsTrans ContactWindow keyLE :=
  ⟨fun a b c => by unfold keyLE; omega⟩

/-- The per-pass mutable dictionary gs_schedules mapping a ground-station id
to the list of contacts admitted there so far, modelled as an association
list. -/
abbrev Sched := List (String × List ContactWindow)

/-- The overlap test of assign_contacts, literally
not (end <= existing.end_time or start >= existing.start_time),
where the first argument is the candidate contact and the second an already
admitted one. -/
def overlapPred (c ex : ContactWindow) : Bool :=
  !(decide (c.end_time ≤ ex.end_time) || decide (c.start_time ≥ ex.start_time))

/-- overlaps = sum(... for existing in gs_schedules[gs_id]): the number of
already admitted contacts at the station that the candidate counts as
overlapping. -/
def overlapsCount (c : ContactWindow) (existing : List ContactWindow) : Nat :=
  existing.countP (overlapPred c)

/-- Dictionary read gs_schedules[gs_id]; none models KeyError. -/
def lookupSched : Sched → String → Option (List ContactWindow)
  | [], _ => none
  | (k, l) :: rest, gid => if k = gid then some l else lookupSched rest gid

/-- Dictionary update gs_schedules[gs_id].append(contact): the contact is
appended to the list stored under the (first) matching key. -/
def updateSched : Sched → String → ContactWindow → Sched
  | [], _, _ => []
  | (k, l) :: rest, gid, c =>
    if k = gid then (k, l ++ [c]) :: rest else (k, l) :: updateSched rest gid c

/-- capacity = next(gs.capacity for gs in ground_stations if gs.id == gs_id);
none models StopIteration (unknown ground-station id). -/
def capacityOf : List GroundStation → String → Option Nat
  | [], _ => none
  | g :: rest, gid => if g.id = gid then some g.capacity else capacityOf rest gid

/-- One iteration of the loop body of assign_contacts for the contact c:
look up the station schedule and capacity, count overlaps, and either admit
(assigned = true, contact appended to the station schedule) or reject
(assigned = false).  none models an exception (KeyError / StopIteration)
aborting the whole call. -/
def assignStep (ground_stations : List GroundStation) (sch : Sched) (c : ContactWindow) :
    Option (Bool × Sched) :=
  match lookupSched sch c.ground_station_id, capacityOf ground_stations c.ground_station_id with
  | some existing, some cap =>
    if overlapsCount c existing < cap then
      some (true, updateSched sch c.ground_station_id c)
    else
      some (false, sch)
  | _, _ => none

/-- The loop of assign_contacts over the sorted windows, threading the
gs_schedules state and accumulating the assignments list in processing
order; also returns the final gs_schedules state. -/
def assignFull (ground_stations : List GroundStation) :
    List ContactWindow → Sched → Option (List (ContactWindow × Bool) × Sched)
  | [], sch => some ([], sch)
  | c :: rest, sch =>
    match assignStep ground_stations sch c with
    | none => none
    | some (b, sch1) =>
      match assignFull ground_stations rest sch1 with
      | none => none
      | some (out, fin) => some ((c, b) :: out, fin)

/-- gs_schedules = (dictionary with an empty list for every catalog station). -/
def initSched (ground_stations : List GroundStation) : Sched :=
  ground_stations.map fun g => (g.id, ([] : List ContactWindow))

/-- assign_contacts(contact_windows, ground_stations): sort the windows by
(priority, start_time) with a stable sort, then run the greedy admission
loop.  Each output element pairs an (unmodified) input window with its
assigned flag; none models an uncaught exception. -/
def assign_contacts (contact_windows : List ContactWindow)
    (ground_stations : List GroundStation) : Option (List (ContactWindow × Bool)) :=
  (assignFull ground_stations (List.insertionSort keyLE contact_windows)
      (initSched ground_stations)).map Prod.fst

/-! ## Position simulator (simulate_satellite_position) -/

/-- The errors simulate_satellite_position can raise: invalidIdentifier
models the IndexError / ValueError raised by int(sat_id.split("-")[1]) on a
malformed identifier, zeroDivision the ZeroDivisionError raised when
orbit_period is zero. -/
inductive PosError where
  | invalidIdentifier
  | zeroDivision
  deriving DecidableEq, Repr

/-- A UTC instant at the granularity the source reads from it: only the hour
and minute fields of the timestamp are ever used. -/
structure Timestamp where
  hour : Nat
  minute : Nat
  deriving DecidableEq, Repr

/-- Models the Python str.split("-") method on the character list of a
string: the maximal runs of characters between dashes, so that for example
SAT-7 splits into SAT and 7, and a string without a dash yields a singleton. -/
def splitDash : List Char → List (List Char)
  | [] => [[]]
  | c :: rest =>
    match splitDash rest with
    | [] => [[]]
    | g :: gs => if c = '-' then [] :: g :: gs else (c :: g) :: gs

/-- The ASCII characters the Python int() conversion strips from both ends
of its argument: space, the range tab through carriage return, and the
separator range 28 to 31 (all of which satisfy the whitespace test CPython
uses).  Non-ASCII whitespace also stripped by Python lies outside the ASCII
domain the claims restrict to. -/
def isPySpace (c : Char) : Bool :=
  decide (c.toNat = 32 ∨ (9 ≤ c.toNat ∧ c.toNat ≤ 13) ∨ (28 ≤ c.toNat ∧ c.toNat ≤ 31))

/-- Both-ends whitespace stripping, as int() applies before parsing. -/
def stripPySpaces (cs : List Char) : List Char :=
  ((cs.dropWhile isPySpace).reverse.dropWhile isPySpace).reverse

/-- The digit run of a Python decimal integer literal after the optional
sign, accumulating its value: digits with single underscores allowed only
between two digits (the Python 3 digit-grouping rule). -/
def parseDigitsGo (acc : Nat) : List Char → Option Nat
  | [] => some acc
  | '_' :: rest =>
    match rest with
    | [] => none
    | d :: rest2 =>
      if d.isDigit then parseDigitsGo (10 * acc + (d.toNat - 48)) rest2 else none
  | d :: rest => if d.isDigit then parseDigitsGo (10 * acc + (d.toNat - 48)) rest else none

/-- One or more decimal digits with Python digit grouping; none otherwise. -/
def parseDigits : List Char → Option Nat
  | [] => none
  | c :: rest => if c.isDigit then parseDigitsGo (c.toNat - 48) rest else none

/-- Models the Python int() conversion of a string (given as its character
list) restricted to ASCII arguments: strip surrounding whitespace, then an
optional sign followed by decimal digits with single underscores allowed
between digits; none models ValueError.  Outside ASCII, Python additionally
accepts Unicode decimal digits and Unicode whitespace, which this model does
not cover; the claims about identifier parsing are therefore stated for
identifiers whose relevant field is ASCII-only. -/
def intOfChars (cs : List Char) : Option Int :=
  match stripPySpaces cs with
  | '-' :: rest => (parseDigits rest).map fun n => -(n : Int)
  | '+' :: rest => (parseDigits rest).map fun n => (n : Int)
  | t => (parseDigits t).map fun n => (n : Int)

/-- offset = int(sat_id.split("-")[1]) if sat_id else 0.  A missing or empty
identifier is falsy in Python and yields offset 0; otherwise the identifier
is split on dashes and the second field converted with int(), an IndexError
(no second field) or ValueError (field not an integer) being modelled as
invalidIdentifier and propagating to the caller. -/
def offsetOfSatId : Option String → Except PosError Int
  | none => Except.ok 0
  | some s =>
    if s.data = [] then Except.ok 0
    else
      match (splitDash s.data).get? 1 with
      | none => Except.error PosError.invalidIdentifier
      | some field =>
        match intOfChars field with
        | none => Except.error PosError.invalidIdentifier
        | some k => Except.ok k

/-- The real-number value of the Python float modulo x % y:
x - y * floor(x / y), which for a positive modulus y lies in [0, y) whatever
the sign of x.  This is an exact-arithmetic idealisation: the program runs
on IEEE-754 doubles, where CPython computes fmod(x, y) and, when the signs
differ, a rounded addition of y whose result can round UP to y itself, so
the program can return exactly y where this model returns a value strictly
below y (see the float-rounding theorem at the end of the file). -/
def fmod (x y : Rat) : Rat := x - y * ((⌊x / y⌋ : Int) : Rat)

/-- simulate_satellite_position(orbit_period, timestamp, sat_id): derive the
offset from the identifier, then
minutes = timestamp.minute + timestamp.hour * 60 + offset,
angle = (360 * minutes / orbit_period) % 360,
lat = sin(radians(angle)) * 60 and lon = (angle - 180) % 360 - 180.
The angle and longitude arithmetic is exact rational arithmetic and the
latitude lives in the reals through Real.sin, whereas the source computes in
IEEE-754 doubles: where a float modulo result lies within one rounding step
of the modulus, the program can emit the modulus itself (longitude exactly
180.0) while this idealisation stays strictly below it.  Dividing by a zero
orbit_period raises ZeroDivisionError, modelled as the zeroDivision error;
no other validation of orbit_period exists in the source. -/
noncomputable def simulate_satellite_position (orbit_period : Int) (t : Timestamp)
    (sat_id : Option String) : Except PosError (Real × Rat) :=
  match offsetOfSatId sat_id with
  | Except.error e => Except.error e
  | Except.ok offset =>
    if orbit_period = 0 then Except.error PosError.zeroDivision
    else
      let minutes : Int := (t.minute : Int) + (t.hour : Int) * 60 + offset
      let angle : Rat := fmod (360 * (minutes : Rat) / (orbit_period : Rat)) 360
      Except.ok (Real.sin ((angle : Real) * Real.pi / 180) * 60,
        fmod (angle - 180) 360 - 180)

/-! ## Equivalences used to relate scheduler runs -/

/-- Two optional station schedules agree up to permutation. -/
def OptPerm : Option (List ContactWindow) → Option (List ContactWindow) → Prop
  | some l1, some l2 => l1.Perm l2
  | none, none => True
  | _, _ => False

/-- Two gs_schedules states agree on every station up to permutation of the
admitted lists; the admission decisions only read those lists through a
countP, so equivalent states are interchangeable. -/
def SchedEquiv (s1 s2 : Sched) : Prop :=
  ∀ gid, OptPerm (lookupSched s1 gid) (lookupSched s2 gid)

/-- Two scheduler runs with literally equal outputs and equivalent final
states (or both aborted). -/
def FullEquiv : Option (List (ContactWindow × Bool) × Sched) →
    Option (List (ContactWindow × Bool) × Sched) → Prop
  | some (o1, t1), some (o2, t2) => o1 = o2 ∧ SchedEquiv t1 t2
  | none, none => True
  | _, _ => False

/-- Two scheduler runs whose outputs are permutations of each other with
equivalent final states (or both aborted). -/
def ResEquiv : Option (List (ContactWindow × Bool) × Sched) →
    Option (List (ContactWindow × Bool) × Sched) → Prop
  | some (o1, t1), some (o2, t2) => o1.Perm o2 ∧ SchedEquiv t1 t2
  | none, none => True
  | _, _ => False

/-- The guarantee the greedy admission enforces on a schedule state: for
every station list (in admission order) and that station's capacity, each
admitted window counted fewer than capacity of the windows admitted before
it as overlapping. -/
def PrefixCapOK (gss : List GroundStation) (sch : Sched) : Prop :=
  ∀ gid li cap, lookupSched sch gid = some li → capacityOf gss gid = some cap →
    ∀ i, (hi : i < li.length) → overlapsCount li[i] (li.take i) < cap

/-- Prepending an already decided contact to the output of a run. -/
def consOut (p : ContactWindow × Bool) :
    Option (List (ContactWindow × Bool) × Sched) →
    Option (List (ContactWindow × Bool) × Sched) :=
  Option.map fun q => (p :: q.1, q.2)

/-! ## Concrete sample data for witnesses and counterexamples -/

/-- A ground station with capacity 1. -/
def gA : GroundStation := { id := "GS-1", location := "L", capacity := 1, lon := 0, lat := 0 }

/-- Priority-1 window at gA over the interval from 0 to 10. -/
def wP1 : ContactWindow :=
  { satellite_id := "SAT-1", ground_station_id := "GS-1", start_time := 0, end_time := 10,
    timestamp := 0, distance := 100, datavolume := 100, priority := 1 }

/-- Priority-2 window at gA over the same interval from 0 to 10 as wP1. -/
def wP2 : ContactWindow :=
  { satellite_id := "SAT-2", ground_station_id := "GS-1", start_time := 0, end_time := 10,
    timestamp := 0, distance := 100, datavolume := 100, priority := 2 }

/-- Priority-1 window at gA over the interval from 0 to 10 (outer interval). -/
def wOuter : ContactWindow :=
  { satellite_id := "SAT-1", ground_station_id := "GS-1", start_time := 0, end_time := 10,
    timestamp := 0, distance := 100, datavolume := 100, priority := 1 }

/-- Priority-1 window at gA over the interval from 2 to 5, strictly inside
the interval of wOuter. -/
def wInner : ContactWindow :=
  { satellite_id := "SAT-2", ground_station_id := "GS-1", start_time := 2, end_time := 5,
    timestamp := 0, distance := 100, datavolume := 100, priority := 1 }

/-- Priority-1 window at gA over the interval from 2 to 5. -/
def wNest1 : ContactWindow :=
  { satellite_id := "SAT-1", ground_station_id := "GS-1", start_time := 2, end_time := 5,
    timestamp := 0, distance := 100, datavolume := 100, priority := 1 }

/-- Priority-2 window at gA whose interval from 0 to 10 strictly contains
the interval of wNest1. -/
def wNest2 : ContactWindow :=
  { satellite_id := "SAT-2", ground_station_id := "GS-1", start_time := 0, end_time := 10,
    timestamp := 0, distance := 100, datavolume := 100, priority := 2 }

/-! ## Unfolding equations for the admission loop -/

theorem assignFull_nil (gss : List GroundStation) (sch : Sched) :
    assignFull gss [] sch = some (([] : List (ContactWindow × Bool)), sch) := rfl

theorem assignFull_cons (gss : List GroundStation) (c : ContactWindow)
    (l : List ContactWindow) (sch : Sched) :
    assignFull gss (c :: l) sch =
      match assignStep gss sch c with
      | none => none
      | some (b, sch1) => consOut (c, b) (assignFull gss l sch1) := by
  cases h : assignStep gss sch c with
  | none => simp only [assignFull, h]
  | some p =>
    obtain ⟨b, sch1⟩ := p
    simp only [assignFull, h, consOut]
    cases assignFull gss l sch1 with
    | none => rfl
    | some q => rfl

/-! ## Basic facts about the sort key -/

theorem keyLE_refl (a : ContactWindow) : keyLE a a := by
  unfold keyLE; omega

theorem keyLE_key_eq {a b : ContactWindow} (h1 : keyLE a b) (h2 : keyLE b a) :
    a.priority = b.priority ∧ a.start_time = b.start_time := by
  unfold keyLE at h1 h2; omega

/-! ## C4: the overlap predicate -/

/-- C4: in assign_contacts, a candidate window with interval [s1, e1) counts
an already admitted window with interval [s2, e2) at the same station as
overlapping exactly when not (e1 <= e2 or s1 >= s2), that is exactly when
e1 > e2 and s1 < s2; and the overlap count feeding the capacity check counts
exactly the admitted windows satisfying this predicate. -/
theorem overlapPred_iff :
    (∀ c ex : ContactWindow, overlapPred c ex = true ↔
      (ex.end_time < c.end_time ∧ c.start_time < ex.start_time)) ∧
    (∀ (c : ContactWindow) (l : List ContactWindow),
      overlapsCount c l =
        l.countP fun ex => decide (ex.end_time < c.end_time ∧ c.start_time < ex.start_time)) := by
  have key : ∀ c ex : ContactWindow, overlapPred c ex = true ↔
      (ex.end_time < c.end_time ∧ c.start_time < ex.start_time) := by
    intro c ex
    simp only [overlapPred, Bool.not_eq_true', Bool.or_eq_false_iff, decide_eq_false_iff_not,
      not_le, ge_iff_le]
  refine ⟨key, fun c l => ?_⟩
  unfold overlapsCount
  congr 1
  funext ex
  rw [Bool.eq_iff_iff, key, decide_eq_true_eq]

/-! ## C1: priority contention scenario -/

/-- C1 counterexample: two windows with identical (hence fully overlapping)
intervals at station gA of capacity 1, one of priority 1 and one of
priority 2.  assign_contacts admits BOTH: the overlap test only counts an
existing window when the candidate interval strictly contains it, so the
identical intervals contribute overlap count 0 and the priority-2 window is
also admitted, contradicting the claimed assigned = false. -/
theorem assign_identical_intervals_both_admitted :
    assign_contacts [wP1, wP2] [gA] = some [(wP1, true), (wP2, true)] ∧
    wP1.priority = 1 ∧ wP2.priority = 2 ∧ gA.capacity = 1 ∧
    wP1.ground_station_id = gA.id ∧ wP2.ground_station_id = gA.id ∧
    wP1.start_time = wP2.start_time ∧ wP1.end_time = wP2.end_time := by
  decide

/-- C1 (amended): for two windows at the same station of capacity 1, one of
priority 1 and one of priority 2, whose intervals fully overlap in the one
configuration the overlap test counts (the priority-2 interval strictly
contains the priority-1 interval), assign_contacts admits the priority-1
window and rejects the priority-2 window. -/
theorem assign_priority_one_wins (w1 w2 : ContactWindow) (g : GroundStation)
    (hp1 : w1.priority = 1) (hp2 : w2.priority = 2)
    (hg1 : w1.ground_station_id = g.id) (hg2 : w2.ground_station_id = g.id)
    (hcap : g.capacity = 1)
    (hs : w2.start_time < w1.start_time) (he : w1.end_time < w2.end_time) :
    assign_contacts [w1, w2] [g] = some [(w1, true), (w2, false)] := by
  have hk : keyLE w1 w2 := Or.inl (by omega)
  have e1 : lookupSched (initSched [g]) w1.ground_station_id = some [] := by
    simp [initSched, lookupSched, hg1]
  have e2 : capacityOf [g] w1.ground_station_id = some 1 := by
    simp [capacityOf, hg1, hcap]
  have s1 : assignStep [g] (initSched [g]) w1 =
      some (true, updateSched (initSched [g]) w1.ground_station_id w1) := by
    unfold assignStep
    rw [e1, e2]
    simp [overlapsCount]
  have e3 : updateSched (initSched [g]) w1.ground_station_id w1 = [(g.id, [w1])] := by
    simp [initSched, updateSched, hg1]
  have e4 : lookupSched [(g.id, [w1])] w2.ground_station_id = some [w1] := by
    simp [lookupSched, hg2]
  have e5 : capacityOf [g] w2.ground_station_id = some 1 := by
    simp [capacityOf, hg2, hcap]
  have hov : overlapsCount w2 [w1] = 1 := by
    have : overlapPred w2 w1 = true := by
      simp only [overlapPred, Bool.not_eq_true', Bool.or_eq_false_iff, decide_eq_false_iff_not,
        not_le, ge_iff_le]
      omega
    simp [overlapsCount, this]
  have s2 : assignStep [g] [(g.id, [w1])] w2 = some (false, [(g.id, [w1])]) := by
    unfold assignStep
    rw [e4, e5]
    simp [hov]
  have t2 : assignFull [g] [w2] [(g.id, [w1])] = some ([(w2, false)], [(g.id, [w1])]) := by
    rw [assignFull_cons, s2]
    rfl
  have t1 : assignFull [g] [w1, w2] (initSched [g]) =
      some ([(w1, true), (w2, false)], [(g.id, [w1])]) := by
    rw [assignFull_cons, s1, e3]
    dsimp only
    rw [t2]
    rfl
  have hsort : List.insertionSort keyLE [w1, w2] = [w1, w2] := by
    simp [List.insertionSort, List.orderedInsert, if_pos hk]
  rw [assign_contacts, hsort, t1]
  rfl

/-- Witness for the amended C1 at the concrete windows wNest1 (priority 1,
interval 2 to 5) and wNest2 (priority 2, interval 0 to 10) at station gA of
capacity 1. -/
theorem assign_priority_one_wins_witness :
    assign_contacts [wNest1, wNest2] [gA] = some [(wNest1, true), (wNest2, false)] :=
  assign_priority_one_wins wNest1 wNest2 gA (by decide) (by decide) (by decide) (by decide)
    (by decide) (by decide) (by decide)

/-! ## C2: the capacity bound -/

/-- C2 counterexample: at station gA of capacity 1, the same-priority nested
windows wOuter (interval 0 to 10) and wInner (interval 2 to 5) are BOTH
admitted by assign_contacts, yet the pair mutually overlaps under the
documented predicate (wOuter counts wInner as overlapping), so two mutually
overlapping windows hold assigned = true at a station of capacity 1. -/
theorem assign_capacity_exceeded :
    assign_contacts [wOuter, wInner] [gA] = some [(wOuter, true), (wInner, true)] ∧
    overlapPred wOuter wInner = true ∧ gA.capacity = 1 := by
  decide

/-! ## The output lists the processed windows in processing order -/

theorem assignFull_fst (gss : List GroundStation) :
    ∀ (l : List ContactWindow) (sch : Sched) (out : List (ContactWindow × Bool)) (fin : Sched),
      assignFull gss l sch = some (out, fin) → out.map Prod.fst = l := by
  intro l
  induction l with
  | nil =>
    intro sch out fin h
    rw [assignFull_nil] at h
    cases h
    rfl
  | cons c rest ih =>
    intro sch out fin h
    rw [assignFull_cons] at h
    cases hs : assignStep gss sch c with
    | none => rw [hs] at h; exact absurd h (by simp)
    | some p =>
      obtain ⟨b, sch1⟩ := p
      rw [hs] at h
      dsimp only at h
      cases hf : assignFull gss rest sch1 with
      | none => rw [hf] at h; simp [consOut] at h
      | some q =>
        obtain ⟨out1, fin1⟩ := q
        rw [hf] at h
        simp only [consOut, Option.map, Option.some.injEq, Prod.mk.injEq] at h
        obtain ⟨h1, h2⟩ := h
        subst h1
        simp only [List.map_cons]
        exact congrArg (List.cons c) (ih sch1 out1 fin1 hf)

/-! ## Stability of the insertion sort under equal-key filters -/

theorem filter_orderedInsert_key (p : ContactWindow → Bool)
    (hp : ∀ a b : ContactWindow, p a = true → p b = true → keyLE a b)
    (a : ContactWindow) :
    ∀ l : List ContactWindow,
      (List.orderedInsert keyLE a l).filter p =
        if p a then a :: l.filter p else l.filter p := by
  intro l
  induction l with
  | nil =>
    cases hpa : p a with
    | true => simp [List.orderedInsert, List.filter, hpa]
    | false => simp [List.orderedInsert, List.filter, hpa]
  | cons b m ih =>
    rw [List.orderedInsert]
    by_cases hab : keyLE a b
    · rw [if_pos hab]
      cases hpa : p a with
      | true => simp [List.filter_cons, hpa]
      | false => simp [List.filter_cons, hpa]
    · rw [if_neg hab]
      cases hpa : p a with
      | false => simp [List.filter_cons, ih, hpa]
      | true =>
        cases hpb : p b with
        | true => exact absurd (hp a b hpa hpb) hab
        | false => simp [List.filter_cons, ih, hpa, hpb]

theorem filter_insertionSort_key (p : ContactWindow → Bool)
    (hp : ∀ a b : ContactWindow, p a = true → p b = true → keyLE a b) :
    ∀ l : List ContactWindow,
      (List.insertionSort keyLE l).filter p = l.filter p := by
  intro l
  induction l with
  | nil => rfl
  | cons a m ih =>
    rw [List.insertionSort, filter_orderedInsert_key p hp a]
    cases hpa : p a with
    | true => simp [List.filter_cons, hpa, ih]
    | false => simp [List.filter_cons, hpa, ih]

/-! ## C5: shape and order of the returned sequence -/

/-- C5: whenever assign_contacts succeeds it returns as many elements as its
input, every element paired with a definite assigned boolean, and the
returned sequence is the stable (priority ascending, start_time ascending)
sort of the input rather than the original input order: the windows come out
in keyLE-sorted order, form a permutation of the input, and any two windows
with equal sort keys keep their input relative order (every equal-key filter
of the output equals that filter of the input). -/
theorem assign_returns_sorted_stable (ws : List ContactWindow) (gss : List GroundStation)
    (out : List (ContactWindow × Bool)) (h : assign_contacts ws gss = some out) :
    out.length = ws.length ∧
    out.map Prod.fst = List.insertionSort keyLE ws ∧
    List.Sorted keyLE (out.map Prod.fst) ∧
    (out.map Prod.fst).Perm ws ∧
    (∀ pr st : Nat,
      (out.map Prod.fst).filter (fun w => decide (w.priority = pr ∧ w.start_time = st)) =
        ws.filter (fun w => decide (w.priority = pr ∧ w.start_time = st))) := by
  unfold assign_contacts at h
  cases hf : assignFull gss (List.insertionSort keyLE ws) (initSched gss) with
  | none => rw [hf] at h; simp at h
  | some q =>
    obtain ⟨out1, fin1⟩ := q
    rw [hf] at h
    simp only [Option.map] at h
    cases h
    have hfst := assignFull_fst gss _ _ _ _ hf
    refine ⟨?_, hfst, ?_, ?_, ?_⟩
    · have hlen := congrArg List.length hfst
      simp only [List.length_map] at hlen
      rw [hlen, (List.perm_insertionSort keyLE ws).length_eq]
    · rw [hfst]
      exact List.sorted_insertionSort keyLE ws
    · rw [hfst]
      exact List.perm_insertionSort keyLE ws
    · intro pr st
      rw [hfst]
      refine filter_insertionSort_key _ ?_ ws
      intro a b ha hb
      simp only [decide_eq_true_eq] at ha hb
      right
      omega

/-- Witness for C5 at the concrete input [wP1, wP2] with catalog [gA]. -/
theorem assign_returns_sorted_stable_witness :
    ([(wP1, true), (wP2, true)] : List (ContactWindow × Bool)).length = [wP1, wP2].length ∧
    ([(wP1, true), (wP2, true)] : List (ContactWindow × Bool)).map Prod.fst =
      List.insertionSort keyLE [wP1, wP2] ∧
    List.Sorted keyLE (([(wP1, true), (wP2, true)] : List (ContactWindow × Bool)).map Prod.fst) ∧
    (([(wP1, true), (wP2, true)] : List (ContactWindow × Bool)).map Prod.fst).Perm [wP1, wP2] ∧
    (∀ pr st : Nat,
      (([(wP1, true), (wP2, true)] : List (ContactWindow × Bool)).map Prod.fst).filter
          (fun w => decide (w.priority = pr ∧ w.start_time = st)) =
        [wP1, wP2].filter (fun w => decide (w.priority = pr ∧ w.start_time = st))) :=
  assign_returns_sorted_stable [wP1, wP2] [gA] [(wP1, true), (wP2, true)] (by decide)

/-! ## C9: only the assigned flag is decided -/

/-- C9: assign_contacts only adds the assigned flag: the windows appearing in
the output are exactly the input windows as a multiset, with satellite_id,
ground_station_id, start_time, end_time, timestamp, distance, datavolume and
priority untouched, and each input window is paired with exactly one assigned
boolean in the output. -/
theorem assign_frame (ws : List ContactWindow) (gss : List GroundStation)
    (out : List (ContactWindow × Bool)) (h : assign_contacts ws gss = some out) :
    (out.map Prod.fst).Perm ws := by
  unfold assign_contacts at h
  cases hf : assignFull gss (List.insertionSort keyLE ws) (initSched gss) with
  | none => rw [hf] at h; simp at h
  | some q =>
    obtain ⟨out1, fin1⟩ := q
    rw [hf] at h
    simp only [Option.map] at h
    cases h
    rw [assignFull_fst gss _ _ _ _ hf]
    exact List.perm_insertionSort keyLE ws

/-- Witness for C9 at the concrete input [wP1, wP2] with catalog [gA]. -/
theorem assign_frame_witness :
    (([(wP1, true), (wP2, true)] : List (ContactWindow × Bool)).map Prod.fst).Perm [wP1, wP2] :=
  assign_frame [wP1, wP2] [gA] [(wP1, true), (wP2, true)] (by decide)

/-! ## Reading the schedule dictionary through updates -/

theorem lookupSched_updateSched (s : Sched) (gid gid' : String) (c : ContactWindow) :
    lookupSched (updateSched s gid c) gid' =
      if gid = gid' then (lookupSched s gid').map (fun l => l ++ [c])
      else lookupSched s gid' := by
  induction s with
  | nil =>
    simp only [updateSched, lookupSched]
    split <;> rfl
  | cons e rest ih =>
    obtain ⟨k, l⟩ := e
    by_cases hk : k = gid
    · subst hk
      simp only [updateSched, if_pos rfl, lookupSched]
      by_cases hk' : k = gid'
      · subst hk'
        simp [lookupSched]
      · simp [lookupSched, hk']
    · simp only [updateSched, if_neg hk, lookupSched]
      by_cases hk' : k = gid'
      · subst hk'
        have hne : ¬ gid = k := fun h => hk h.symm
        simp [lookupSched, hne]
      · simp [lookupSched, hk', ih]

theorem lookupSched_initSched (gss : List GroundStation) (gid : String)
    (li : List ContactWindow) (h : lookupSched (initSched gss) gid = some li) : li = [] := by
  induction gss with
  | nil => simp [initSched, lookupSched] at h
  | cons g rest ih =>
    simp only [initSched, List.map, lookupSched] at h
    by_cases hg : g.id = gid
    · rw [if_pos hg] at h
      cases h
      rfl
    · rw [if_neg hg] at h
      exact ih h

/-! ## Inversion of one admission step -/

theorem assignStep_some_inv {gss : List GroundStation} {sch : Sched} {c : ContactWindow}
    {b : Bool} {sch1 : Sched} (h : assignStep gss sch c = some (b, sch1)) :
    ∃ existing cap, lookupSched sch c.ground_station_id = some existing ∧
      capacityOf gss c.ground_station_id = some cap ∧
      ((overlapsCount c existing < cap ∧ b = true ∧
          sch1 = updateSched sch c.ground_station_id c) ∨
        (¬ overlapsCount c existing < cap ∧ b = false ∧ sch1 = sch)) := by
  unfold assignStep at h
  cases hl : lookupSched sch c.ground_station_id with
  | none =>
    cases hc : capacityOf gss c.ground_station_id with
    | none => rw [hl, hc] at h; simp at h
    | some cap => rw [hl, hc] at h; simp at h
  | some existing =>
    cases hc : capacityOf gss c.ground_station_id with
    | none => rw [hl, hc] at h; simp at h
    | some cap =>
      rw [hl, hc] at h
      dsimp only at h
      refine ⟨existing, cap, rfl, rfl, ?_⟩
      by_cases hov : overlapsCount c existing < cap
      · rw [if_pos hov] at h
        simp only [Option.some.injEq, Prod.mk.injEq] at h
        exact Or.inl ⟨hov, h.1.symm, h.2.symm⟩
      · rw [if_neg hov] at h
        simp only [Option.some.injEq, Prod.mk.injEq] at h
        exact Or.inr ⟨hov, h.1.symm, h.2.symm⟩

/-! ## C10: a batch sharing one start time sees no overlaps -/

theorem assign_same_start_go (gss : List GroundStation) (t : Nat) :
    ∀ (l : List ContactWindow) (sch : Sched),
      (∀ w ∈ l, w.start_time = t) →
      (∀ gid li, lookupSched sch gid = some li → ∀ w ∈ li, w.start_time = t) →
      ∀ out fin, assignFull gss l sch = some (out, fin) →
        ∀ w b, (w, b) ∈ out →
          ∀ cap, capacityOf gss w.ground_station_id = some cap → (b = true ↔ 0 < cap) := by
  intro l
  induction l with
  | nil =>
    intro sch _ _ out fin h w b hw cap hcap
    rw [assignFull_nil] at h
    cases h
    simp at hw
  | cons c rest ih =>
    intro sch hl hsch out fin h w b hw cap hcap
    rw [assignFull_cons] at h
    cases hs : assignStep gss sch c with
    | none => rw [hs] at h; exact absurd h (by simp)
    | some p =>
      obtain ⟨b1, sch1⟩ := p
      rw [hs] at h
      dsimp only at h
      cases hf : assignFull gss rest sch1 with
      | none => rw [hf] at h; simp [consOut] at h
      | some q =>
        obtain ⟨out1, fin1⟩ := q
        rw [hf] at h
        simp only [consOut, Option.map, Option.some.injEq, Prod.mk.injEq] at h
        obtain ⟨h1, h2⟩ := h
        subst h1
        obtain ⟨existing, cap0, hlk, hcap0, hbranch⟩ := assignStep_some_inv hs
        have hct : c.start_time = t := hl c (List.mem_cons_self c rest)
        have hcnt : overlapsCount c existing = 0 := by
          unfold overlapsCount
          rw [List.countP_eq_zero]
          intro ex hex
          have hext : ex.start_time = t := hsch _ _ hlk ex hex
          simp only [overlapPred, Bool.not_eq_true', Bool.or_eq_true, decide_eq_true_eq,
            ge_iff_le, Bool.not_eq_false]
          omega
        have hsch1 : ∀ gid li, lookupSched sch1 gid = some li → ∀ w ∈ li, w.start_time = t := by
          rcases hbranch with ⟨_, _, hupd⟩ | ⟨_, _, hsame⟩
          · subst hupd
            intro gid li hli w hwli
            rw [lookupSched_updateSched] at hli
            by_cases hgid : c.ground_station_id = gid
            · rw [if_pos hgid] at hli
              cases he : lookupSched sch gid with
              | none => rw [he] at hli; simp at hli
              | some l0 =>
                rw [he] at hli
                simp only [Option.map, Option.some.injEq] at hli
                subst hli
                rcases List.mem_append.mp hwli with hw0 | hw0
                · exact hsch _ _ he w hw0
                · rw [List.mem_singleton.mp hw0]
                  exact hct
            · rw [if_neg hgid] at hli
              exact hsch _ _ hli w hwli
          · subst hsame
            exact hsch
        rcases List.mem_cons.mp hw with hhead | htail
        · injection hhead with hwc hwb
          subst hwc
          subst hwb
          rw [hcap] at hcap0
          injection hcap0 with hcc
          rw [hcnt] at hbranch
          rcases hbranch with ⟨hov, hb1, _⟩ | ⟨hov, hb1, _⟩
          · rw [hb1]
            exact ⟨fun _ => by omega, fun _ => rfl⟩
          · rw [hb1]
            exact ⟨fun hh => absurd hh (by decide), fun hh => absurd hh (by omega)⟩
        · exact ih sch1 (fun w hw => hl w (List.mem_cons_of_mem c hw)) hsch1 out1 fin1 hf
            w b htail cap hcap

/-- C10: when every input window carries the same start_time (as the
generator produces for one tick, every start_time being the tick timestamp),
the overlap test never counts any admitted window, so assign_contacts marks
a window assigned = true exactly when its ground station has capacity
greater than 0, regardless of priority, end_time, or how many windows that
station already admitted. -/
theorem assign_same_start (ws : List ContactWindow) (gss : List GroundStation) (t : Nat)
    (hstart : ∀ w ∈ ws, w.start_time = t)
    (out : List (ContactWindow × Bool)) (h : assign_contacts ws gss = some out) :
    ∀ w b, (w, b) ∈ out → ∀ cap, capacityOf gss w.ground_station_id = some cap →
      (b = true ↔ 0 < cap) := by
  unfold assign_contacts at h
  cases hf : assignFull gss (List.insertionSort keyLE ws) (initSched gss) with
  | none => rw [hf] at h; simp at h
  | some q =>
    obtain ⟨out1, fin1⟩ := q
    rw [hf] at h
    simp only [Option.map] at h
    cases h
    refine assign_same_start_go gss t (List.insertionSort keyLE ws) (initSched gss) ?_ ?_
      _ _ hf
    · intro w hw
      exact hstart w ((List.perm_insertionSort keyLE ws).subset hw)
    · intro gid li hli w hwli
      rw [lookupSched_initSched gss gid li hli] at hwli
      simp at hwli

/-- Witness for C10: at the same-start input [wP1, wP2] with catalog [gA],
the priority-1 window is admitted and the capacity of gA is positive. -/
theorem assign_same_start_witness : (true = true ↔ 0 < gA.capacity) :=
  assign_same_start [wP1, wP2] [gA] 0 (by decide) [(wP1, true), (wP2, true)] (by decide)
    wP1 true (by decide) gA.capacity (by decide)

/-! ## C2 (amended): the admission-time prefix capacity bound -/

theorem assign_prefix_go (gss : List GroundStation) :
    ∀ (l : List ContactWindow) (sch : Sched) (out : List (ContactWindow × Bool)) (fin : Sched),
      assignFull gss l sch = some (out, fin) → PrefixCapOK gss sch →
      PrefixCapOK gss fin ∧
      ∀ gid li, lookupSched fin gid = some li → ∀ w ∈ li,
        (∃ l0, lookupSched sch gid = some l0 ∧ w ∈ l0) ∨ (w, true) ∈ out := by
  intro l
  induction l with
  | nil =>
    intro sch out fin h hinv
    rw [assignFull_nil] at h
    cases h
    exact ⟨hinv, fun gid li hli w hw => Or.inl ⟨li, hli, hw⟩⟩
  | cons c rest ih =>
    intro sch out fin h hinv
    rw [assignFull_cons] at h
    cases hs : assignStep gss sch c with
    | none => rw [hs] at h; exact absurd h (by simp)
    | some p =>
      obtain ⟨b1, sch1⟩ := p
      rw [hs] at h
      dsimp only at h
      cases hf : assignFull gss rest sch1 with
      | none => rw [hf] at h; simp [consOut] at h
      | some q =>
        obtain ⟨out1, fin1⟩ := q
        rw [hf] at h
        simp only [consOut, Option.map, Option.some.injEq, Prod.mk.injEq] at h
        obtain ⟨h1, h2⟩ := h
        subst h1
        subst h2
        obtain ⟨existing, cap0, hlk, hcap0, hbranch⟩ := assignStep_some_inv hs
        have key : PrefixCapOK gss sch1 ∧
            ∀ gid li, lookupSched sch1 gid = some li → ∀ w ∈ li,
              (∃ l0, lookupSched sch gid = some l0 ∧ w ∈ l0) ∨ (w = c ∧ b1 = true) := by
          rcases hbranch with ⟨hov, hb1, hupd⟩ | ⟨_, _, hsame⟩
          · subst hupd
            constructor
            · intro gid li cap hli hcap i hi
              rw [lookupSched_updateSched] at hli
              by_cases hgid : c.ground_station_id = gid
              · subst hgid
                rw [if_pos rfl, hlk] at hli
                simp only [Option.map, Option.some.injEq] at hli
                subst hli
                rw [hcap] at hcap0
                injection hcap0 with hcc
                have hlen : i < existing.length + 1 := by
                  simpa using hi
                by_cases hilt : i < existing.length
                · rw [List.getElem_append_left hilt,
                    List.take_append_of_le_length (Nat.le_of_lt hilt)]
                  have := hinv _ _ _ hlk hcap i hilt
                  exact this
                · have hieq : i = existing.length := by omega
                  subst hieq
                  rw [List.getElem_concat_length existing c _ rfl, List.take_left]
                  omega
              · rw [if_neg hgid] at hli
                exact hinv _ _ _ hli hcap i hi
            · intro gid li hli w hw
              rw [lookupSched_updateSched] at hli
              by_cases hgid : c.ground_station_id = gid
              · subst hgid
                rw [if_pos rfl, hlk] at hli
                simp only [Option.map, Option.some.injEq] at hli
                subst hli
                rcases List.mem_append.mp hw with hw0 | hw0
                · exact Or.inl ⟨existing, hlk, hw0⟩
                · exact Or.inr ⟨List.mem_singleton.mp hw0, hb1⟩
              · rw [if_neg hgid] at hli
                exact Or.inl ⟨li, hli, hw⟩
          · subst hsame
            exact ⟨hinv, fun gid li hli w hw => Or.inl ⟨li, hli, hw⟩⟩
        obtain ⟨hinv1, hrel⟩ := key
        obtain ⟨hfininv, hmem⟩ := ih sch1 out1 fin1 hf hinv1
        refine ⟨hfininv, fun gid li hli w hw => ?_⟩
        rcases hmem gid li hli w hw with ⟨l0, hl0, hw0⟩ | hout
        · rcases hrel gid l0 hl0 w hw0 with hleft | ⟨hwc, hb1⟩
          · exact Or.inl hleft
          · subst hwc
            subst hb1
            exact Or.inr (List.mem_cons_self _ _)
        · exact Or.inr (List.mem_cons_of_mem _ hout)

/-- C2 (amended): what the greedy pass actually enforces per ground station
is an admission-time bound: every window stored in the final per-station
admitted list is marked assigned = true in the output, and each such window,
at the moment it was admitted, counted fewer than the station capacity of
the previously admitted windows there as overlapping under the documented
predicate.  The total number of mutually overlapping admitted windows can
exceed the capacity (see the counterexample with nested intervals); the
bound that holds is this prefix bound.  assign_contacts is the Prod.fst
projection of the assignFull run constrained here. -/
theorem assign_admission_prefix_capacity (ws : List ContactWindow)
    (gss : List GroundStation) (out : List (ContactWindow × Bool)) (fin : Sched)
    (hfull : assignFull gss (List.insertionSort keyLE ws) (initSched gss) = some (out, fin)) :
    assign_contacts ws gss = some out ∧
    PrefixCapOK gss fin ∧
    ∀ gid li, lookupSched fin gid = some li → ∀ w ∈ li, (w, true) ∈ out := by
  have hinit : PrefixCapOK gss (initSched gss) := by
    intro gid li cap hli hcap i hi
    rw [lookupSched_initSched gss gid li hli] at hi
    simp at hi
  obtain ⟨hfin, hmem⟩ := assign_prefix_go gss _ _ _ _ hfull hinit
  refine ⟨?_, hfin, fun gid li hli w hw => ?_⟩
  · unfold assign_contacts
    rw [hfull]
    rfl
  · rcases hmem gid li hli w hw with ⟨l0, hl0, hw0⟩ | hout
    · rw [lookupSched_initSched gss gid l0 hl0] at hw0
      simp at hw0
    · exact hout

/-- Witness for the amended C2: the concrete run on [wOuter, wInner] at
station gA ends with both windows admitted at GS-1, and the prefix bound
holds there. -/
theorem assign_admission_prefix_capacity_witness :
    assign_contacts [wOuter, wInner] [gA] = some [(wOuter, true), (wInner, true)] ∧
    PrefixCapOK [gA] [("GS-1", [wOuter, wInner])] ∧
    ∀ gid li, lookupSched [("GS-1", [wOuter, wInner])] gid = some li →
      ∀ w ∈ li, (w, true) ∈ [(wOuter, true), (wInner, true)] :=
  assign_admission_prefix_capacity [wOuter, wInner] [gA]
    [(wOuter, true), (wInner, true)] [("GS-1", [wOuter, wInner])] (by decide)

/-! ## Equivalence lemmas for schedule states -/

theorem optPerm_refl (o : Option (List ContactWindow)) : OptPerm o o := by
  cases o with
  | none => trivial
  | some l => exact List.Perm.refl l

theorem optPerm_symm {o1 o2 : Option (List ContactWindow)} (h : OptPerm o1 o2) :
    OptPerm o2 o1 := by
  cases o1 with
  | none =>
    cases o2 with
    | none => trivial
    | some l2 => exact False.elim h
  | some l1 =>
    cases o2 with
    | none => exact False.elim h
    | some l2 => exact List.Perm.symm h

theorem optPerm_trans {o1 o2 o3 : Option (List ContactWindow)}
    (h1 : OptPerm o1 o2) (h2 : OptPerm o2 o3) : OptPerm o1 o3 := by
  cases o1 <;> cases o2 <;> cases o3 <;>
    first
      | trivial
      | exact False.elim h1
      | exact False.elim h2
      | exact List.Perm.trans h1 h2

theorem schedEquiv_refl (s : Sched) : SchedEquiv s s :=
  fun _ => optPerm_refl _

theorem schedEquiv_symm {s1 s2 : Sched} (h : SchedEquiv s1 s2) : SchedEquiv s2 s1 :=
  fun gid => optPerm_symm (h gid)

theorem schedEquiv_trans {s1 s2 s3 : Sched} (h1 : SchedEquiv s1 s2) (h2 : SchedEquiv s2 s3) :
    SchedEquiv s1 s3 :=
  fun gid => optPerm_trans (h1 gid) (h2 gid)

theorem schedEquiv_update {s1 s2 : Sched} (h : SchedEquiv s1 s2) (gid : String)
    (c : ContactWindow) : SchedEquiv (updateSched s1 gid c) (updateSched s2 gid c) := by
  intro gid'
  rw [lookupSched_updateSched, lookupSched_updateSched]
  by_cases hg : gid = gid'
  · rw [if_pos hg, if_pos hg]
    have hq := h gid'
    cases e1 : lookupSched s1 gid' with
    | none =>
      cases e2 : lookupSched s2 gid' with
      | none => trivial
      | some l2 => rw [e1, e2] at hq; exact False.elim hq
    | some l1 =>
      cases e2 : lookupSched s2 gid' with
      | none => rw [e1, e2] at hq; exact False.elim hq
      | some l2 =>
        rw [e1, e2] at hq
        exact List.Perm.append_right [c] hq
  · rw [if_neg hg, if_neg hg]
    exact h gid'

theorem schedEquiv_update_comm (s : Sched) (g1 g2 : String) (c1 c2 : ContactWindow) :
    SchedEquiv (updateSched (updateSched s g1 c1) g2 c2)
      (updateSched (updateSched s g2 c2) g1 c1) := by
  intro gid
  by_cases h2 : g2 = gid <;> by_cases h1 : g1 = gid
  · simp only [lookupSched_updateSched, if_pos h1, if_pos h2]
    cases hl : lookupSched s gid with
    | none => trivial
    | some l =>
      show ((l ++ [c1]) ++ [c2]).Perm ((l ++ [c2]) ++ [c1])
      rw [List.append_assoc, List.append_assoc]
      exact List.Perm.append_left l (List.Perm.swap c2 c1 [])
  · simp only [lookupSched_updateSched, if_pos h2, if_neg h1]
    exact optPerm_refl _
  · simp only [lookupSched_updateSched, if_neg h2, if_pos h1]
    exact optPerm_refl _
  · simp only [lookupSched_updateSched, if_neg h2, if_neg h1]
    exact optPerm_refl _

/-! ## Characterisations of one admission step -/

theorem assignStep_none_iff (gss : List GroundStation) (sch : Sched) (c : ContactWindow) :
    assignStep gss sch c = none ↔
      lookupSched sch c.ground_station_id = none ∨
      capacityOf gss c.ground_station_id = none := by
  unfold assignStep
  cases lookupSched sch c.ground_station_id with
  | none => cases capacityOf gss c.ground_station_id <;> simp
  | some l =>
    cases capacityOf gss c.ground_station_id with
    | none => simp
    | some cap =>
      by_cases hov : overlapsCount c l < cap
      · simp [if_pos hov]
      · simp [if_neg hov]

theorem assignStep_eq_some {gss : List GroundStation} {sch : Sched} {c : ContactWindow}
    {existing : List ContactWindow} {cap : Nat}
    (hl : lookupSched sch c.ground_station_id = some existing)
    (hc : capacityOf gss c.ground_station_id = some cap) :
    assignStep gss sch c =
      if overlapsCount c existing < cap
      then some (true, updateSched sch c.ground_station_id c)
      else some (false, sch) := by
  unfold assignStep
  rw [hl, hc]

/-! ## Windows sharing a start time never count each other -/

theorem overlapPred_same_start {a b : ContactWindow} (h : a.start_time = b.start_time) :
    overlapPred b a = false := by
  unfold overlapPred
  have hy : decide (b.start_time ≥ a.start_time) = true := decide_eq_true (by omega)
  rw [hy, Bool.or_true, Bool.not_true]

theorem overlapsCount_append_same_start {a b : ContactWindow} (h : a.start_time = b.start_time)
    (l : List ContactWindow) : overlapsCount b (l ++ [a]) = overlapsCount b l := by
  unfold overlapsCount
  rw [List.countP_append]
  simp [List.countP_cons, overlapPred_same_start h]

theorem assignStep_update_same_start {gss : List GroundStation} {s : Sched}
    {a b : ContactWindow} (hab : a.start_time = b.start_time)
    {lb : List ContactWindow} {capb : Nat}
    (hlb : lookupSched s b.ground_station_id = some lb)
    (hcb : capacityOf gss b.ground_station_id = some capb) :
    assignStep gss (updateSched s a.ground_station_id a) b =
      if overlapsCount b lb < capb
      then some (true,
        updateSched (updateSched s a.ground_station_id a) b.ground_station_id b)
      else some (false, updateSched s a.ground_station_id a) := by
  by_cases hg : a.ground_station_id = b.ground_station_id
  · have hl1 : lookupSched (updateSched s a.ground_station_id a) b.ground_station_id =
        some (lb ++ [a]) := by
      rw [lookupSched_updateSched, if_pos hg, hlb]
      rfl
    rw [assignStep_eq_some hl1 hcb, overlapsCount_append_same_start hab]
  · have hl1 : lookupSched (updateSched s a.ground_station_id a) b.ground_station_id =
        some lb := by
      rw [lookupSched_updateSched, if_neg hg]
      exact hlb
    rw [assignStep_eq_some hl1 hcb]

theorem assignStep_comm {gss : List GroundStation} {s : Sched} {a b : ContactWindow}
    (hab : a.start_time = b.start_time)
    {da : Bool} {sa : Sched} (ha : assignStep gss s a = some (da, sa))
    {db : Bool} {sb : Sched} (hb : assignStep gss s b = some (db, sb)) :
    ∃ sab sba, assignStep gss sa b = some (db, sab) ∧
      assignStep gss sb a = some (da, sba) ∧ SchedEquiv sab sba := by
  obtain ⟨la, capa, hla, hca, hbra⟩ := assignStep_some_inv ha
  obtain ⟨lb, capb, hlb, hcb, hbrb⟩ := assignStep_some_inv hb
  have stepb := assignStep_update_same_start hab hlb hcb
  have stepa := assignStep_update_same_start hab.symm hla hca
  rcases hbra with ⟨hova, hda, hsa⟩ | ⟨hova, hda, hsa⟩ <;>
    rcases hbrb with ⟨hovb, hdb, hsb⟩ | ⟨hovb, hdb, hsb⟩ <;>
      subst hda <;> subst hdb <;> subst hsa <;> subst hsb
  · exact ⟨_, _, by rw [stepb, if_pos hovb], by rw [stepa, if_pos hova],
      schedEquiv_update_comm s a.ground_station_id b.ground_station_id a b⟩
  · exact ⟨_, _, by rw [stepb, if_neg hovb], by rw [ha], schedEquiv_refl _⟩
  · exact ⟨_, _, by rw [hb], by rw [stepa, if_neg hova], schedEquiv_refl _⟩
  · exact ⟨_, _, by rw [hb], by rw [ha], schedEquiv_refl _⟩

/-! ## Equivalence of whole runs -/

theorem resEquiv_refl (o : Option (List (ContactWindow × Bool) × Sched)) : ResEquiv o o := by
  cases o with
  | none => trivial
  | some q =>
    obtain ⟨out, fin⟩ := q
    exact ⟨List.Perm.refl out, schedEquiv_refl fin⟩

theorem resEquiv_symm {o1 o2 : Option (List (ContactWindow × Bool) × Sched)}
    (h : ResEquiv o1 o2) : ResEquiv o2 o1 := by
  cases o1 with
  | none =>
    cases o2 with
    | none => trivial
    | some q2 => exact False.elim h
  | some q1 =>
    cases o2 with
    | none => exact False.elim h
    | some q2 =>
      obtain ⟨o1, f1⟩ := q1
      obtain ⟨o2, f2⟩ := q2
      obtain ⟨hp, hs⟩ := h
      exact ⟨hp.symm, schedEquiv_symm hs⟩

theorem resEquiv_trans {o1 o2 o3 : Option (List (ContactWindow × Bool) × Sched)}
    (h1 : ResEquiv o1 o2) (h2 : ResEquiv o2 o3) : ResEquiv o1 o3 := by
  cases o1 with
  | none =>
    cases o2 with
    | none =>
      cases o3 with
      | none => trivial
      | some q3 => exact False.elim h2
    | some q2 => exact False.elim h1
  | some q1 =>
    cases o2 with
    | none => exact False.elim h1
    | some q2 =>
      cases o3 with
      | none => exact False.elim h2
      | some q3 =>
        obtain ⟨oa, fa⟩ := q1
        obtain ⟨ob, fb⟩ := q2
        obtain ⟨oc, fc⟩ := q3
        obtain ⟨hp1, hs1⟩ := h1
        obtain ⟨hp2, hs2⟩ := h2
        exact ⟨hp1.trans hp2, schedEquiv_trans hs1 hs2⟩

theorem fullEquiv_resEquiv {o1 o2 : Option (List (ContactWindow × Bool) × Sched)}
    (h : FullEquiv o1 o2) : ResEquiv o1 o2 := by
  cases o1 with
  | none =>
    cases o2 with
    | none => trivial
    | some q2 => exact False.elim h
  | some q1 =>
    cases o2 with
    | none => exact False.elim h
    | some q2 =>
      obtain ⟨oa, fa⟩ := q1
      obtain ⟨ob, fb⟩ := q2
      obtain ⟨he, hs⟩ := h
      exact ⟨he ▸ List.Perm.refl oa, hs⟩

theorem resEquiv_consOut (p : ContactWindow × Bool)
    {o1 o2 : Option (List (ContactWindow × Bool) × Sched)} (h : ResEquiv o1 o2) :
    ResEquiv (consOut p o1) (consOut p o2) := by
  cases o1 with
  | none =>
    cases o2 with
    | none => trivial
    | some q2 => exact False.elim h
  | some q1 =>
    cases o2 with
    | none => exact False.elim h
    | some q2 =>
      obtain ⟨oa, fa⟩ := q1
      obtain ⟨ob, fb⟩ := q2
      obtain ⟨hp, hs⟩ := h
      exact ⟨hp.cons p, hs⟩

theorem assignStep_congr {s1 s2 : Sched} (h : SchedEquiv s1 s2) (gss : List GroundStation)
    (c : ContactWindow) :
    (assignStep gss s1 c = none ∧ assignStep gss s2 c = none) ∨
    (∃ b t1 t2, assignStep gss s1 c = some (b, t1) ∧ assignStep gss s2 c = some (b, t2) ∧
      SchedEquiv t1 t2) := by
  have hgid := h c.ground_station_id
  cases e1 : lookupSched s1 c.ground_station_id with
  | none =>
    cases e2 : lookupSched s2 c.ground_station_id with
    | none =>
      left
      exact ⟨(assignStep_none_iff gss s1 c).mpr (Or.inl e1),
        (assignStep_none_iff gss s2 c).mpr (Or.inl e2)⟩
    | some l2 => rw [e1, e2] at hgid; exact False.elim hgid
  | some l1 =>
    cases e2 : lookupSched s2 c.ground_station_id with
    | none => rw [e1, e2] at hgid; exact False.elim hgid
    | some l2 =>
      rw [e1, e2] at hgid
      cases hc : capacityOf gss c.ground_station_id with
      | none =>
        left
        exact ⟨(assignStep_none_iff gss s1 c).mpr (Or.inr hc),
          (assignStep_none_iff gss s2 c).mpr (Or.inr hc)⟩
      | some cap =>
        right
        have hcnt : overlapsCount c l1 = overlapsCount c l2 :=
          List.Perm.countP_eq _ hgid
        by_cases hov : overlapsCount c l1 < cap
        · refine ⟨true, updateSched s1 c.ground_station_id c,
            updateSched s2 c.ground_station_id c, ?_, ?_,
            schedEquiv_update h c.ground_station_id c⟩
          · rw [assignStep_eq_some e1 hc, if_pos hov]
          · rw [assignStep_eq_some e2 hc, if_pos (hcnt ▸ hov)]
        · refine ⟨false, s1, s2, ?_, ?_, h⟩
          · rw [assignStep_eq_some e1 hc, if_neg hov]
          · rw [assignStep_eq_some e2 hc, if_neg (hcnt ▸ hov)]

theorem assignFull_congr (gss : List GroundStation) :
    ∀ (l : List ContactWindow) {s1 s2 : Sched}, SchedEquiv s1 s2 →
      FullEquiv (assignFull gss l s1) (assignFull gss l s2) := by
  intro l
  induction l with
  | nil =>
    intro s1 s2 h
    rw [assignFull_nil, assignFull_nil]
    exact ⟨rfl, h⟩
  | cons c rest ih =>
    intro s1 s2 h
    rw [assignFull_cons, assignFull_cons]
    rcases assignStep_congr h gss c with ⟨e1, e2⟩ | ⟨b, t1, t2, e1, e2, ht⟩
    · rw [e1, e2]
      trivial
    · rw [e1, e2]
      dsimp only
      have hrec := ih ht
      cases r1 : assignFull gss rest t1 with
      | none =>
        cases r2 : assignFull gss rest t2 with
        | none => trivial
        | some q2 => rw [r1, r2] at hrec; exact False.elim hrec
      | some q1 =>
        cases r2 : assignFull gss rest t2 with
        | none => rw [r1, r2] at hrec; exact False.elim hrec
        | some q2 =>
          obtain ⟨o1, f1⟩ := q1
          obtain ⟨o2, f2⟩ := q2
          rw [r1, r2] at hrec
          obtain ⟨ho, hf⟩ := hrec
          subst ho
          exact ⟨rfl, hf⟩

/-! ## Swapping two adjacent windows with equal start times -/

theorem assignFull_swap (gss : List GroundStation) (a b : ContactWindow)
    (hab : a.start_time = b.start_time) (l : List ContactWindow) (s : Sched) :
    ResEquiv (assignFull gss (a :: b :: l) s) (assignFull gss (b :: a :: l) s) := by
  rw [assignFull_cons, assignFull_cons]
  cases ha : assignStep gss s a with
  | none =>
    cases hb : assignStep gss s b with
    | none => trivial
    | some pb =>
      obtain ⟨db, sb⟩ := pb
      dsimp only
      have hnone : assignStep gss sb a = none := by
        rw [assignStep_none_iff] at ha ⊢
        obtain ⟨lb, capb, hlb, hcb, hbrb⟩ := assignStep_some_inv hb
        rcases hbrb with ⟨_, _, hsb⟩ | ⟨_, _, hsb⟩ <;> subst hsb
        · rcases ha with h1 | h1
          · left
            rw [lookupSched_updateSched]
            by_cases hg : b.ground_station_id = a.ground_station_id
            · rw [if_pos hg, h1]
              rfl
            · rw [if_neg hg]
              exact h1
          · right
            exact h1
        · exact ha
      rw [assignFull_cons, hnone]
      trivial
  | some pa =>
    obtain ⟨da, sa⟩ := pa
    cases hb : assignStep gss s b with
    | none =>
      dsimp only
      have hnone : assignStep gss sa b = none := by
        rw [assignStep_none_iff] at hb ⊢
        obtain ⟨la, capa, hla, hca, hbra⟩ := assignStep_some_inv ha
        rcases hbra with ⟨_, _, hsa⟩ | ⟨_, _, hsa⟩ <;> subst hsa
        · rcases hb with h1 | h1
          · left
            rw [lookupSched_updateSched]
            by_cases hg : a.ground_station_id = b.ground_station_id
            · rw [if_pos hg, h1]
              rfl
            · rw [if_neg hg]
              exact h1
          · right
            exact h1
        · exact hb
      rw [assignFull_cons, hnone]
      trivial
    | some pb =>
      obtain ⟨db, sb⟩ := pb
      dsimp only
      obtain ⟨sab, sba, hsab, hsba, hequiv⟩ := assignStep_comm hab ha hb
      rw [assignFull_cons, assignFull_cons, hsab, hsba]
      dsimp only
      have hcong := fullEquiv_resEquiv (assignFull_congr gss l hequiv)
      cases r1 : assignFull gss l sab with
      | none =>
        cases r2 : assignFull gss l sba with
        | none => trivial
        | some q2 => rw [r1, r2] at hcong; exact False.elim hcong
      | some q1 =>
        cases r2 : assignFull gss l sba with
        | none => rw [r1, r2] at hcong; exact False.elim hcong
        | some q2 =>
          obtain ⟨o1, f1⟩ := q1
          obtain ⟨o2, f2⟩ := q2
          rw [r1, r2] at hcong
          obtain ⟨ho, hfq⟩ := hcong
          show ResEquiv (some ((a, da) :: (b, db) :: o1, f1))
            (some ((b, db) :: (a, da) :: o2, f2))
          exact ⟨(List.Perm.swap (b, db) (a, da) o1).trans ((ho.cons (a, da)).cons (b, db)),
            hfq⟩

/-! ## Bubbling a minimal-key window to the front -/

theorem assignFull_bubble (gss : List GroundStation) (a : ContactWindow) :
    ∀ (l : List ContactWindow) (s : Sched), List.Sorted keyLE l → a ∈ l →
      (∀ x ∈ l, keyLE a x) →
      ResEquiv (assignFull gss l s) (assignFull gss (a :: l.erase a) s) := by
  intro l
  induction l with
  | nil => intro s _ ha _; exact absurd ha (List.not_mem_nil a)
  | cons b m ih =>
    intro s hsort hmem hmin
    by_cases hab : a = b
    · subst hab
      rw [List.erase_cons_head]
      exact resEquiv_refl _
    · have hamem : a ∈ m := (List.mem_cons.mp hmem).resolve_left hab
      have hba : keyLE b a := (List.sorted_cons.mp hsort).1 a hamem
      have hable : keyLE a b := hmin b (List.mem_cons_self b m)
      have hstart : a.start_time = b.start_time := (keyLE_key_eq hable hba).2
      have herase : (b :: m).erase a = b :: m.erase a :=
        List.erase_cons_tail (by simp [beq_iff_eq]; exact fun h => hab h.symm)
      rw [herase]
      have hswap := assignFull_swap gss a b hstart (m.erase a) s
      refine resEquiv_trans ?_ (resEquiv_symm hswap)
      rw [assignFull_cons, assignFull_cons]
      cases hbstep : assignStep gss s b with
      | none => trivial
      | some p =>
        obtain ⟨db, sb⟩ := p
        dsimp only
        exact resEquiv_consOut _ (ih sb (List.sorted_cons.mp hsort).2 hamem
          (fun x hx => hmin x (List.mem_cons_of_mem b hx)))

/-! ## Runs of sorted permutations produce permuted outputs -/

theorem assignFull_perm_sorted (gss : List GroundStation) :
    ∀ (l l' : List ContactWindow) (s : Sched), l.Perm l' →
      List.Sorted keyLE l → List.Sorted keyLE l' →
      ResEquiv (assignFull gss l s) (assignFull gss l' s) := by
  intro l
  induction l with
  | nil =>
    intro l' s hp _ _
    rw [(hp.symm.eq_nil : l' = [])]
    exact resEquiv_refl _
  | cons a t ih =>
    intro l' s hp hsl hsl'
    have hal' : a ∈ l' := hp.subset (List.mem_cons_self a t)
    have hmin : ∀ x ∈ l', keyLE a x := by
      intro x hx
      rcases List.mem_cons.mp (hp.symm.subset hx) with hxa | hxt
      · subst hxa
        exact keyLE_refl x
      · exact (List.sorted_cons.mp hsl).1 x hxt
    have hbubble := assignFull_bubble gss a l' s hsl' hal' hmin
    refine resEquiv_trans ?_ (resEquiv_symm hbubble)
    rw [assignFull_cons, assignFull_cons]
    cases hstep : assignStep gss s a with
    | none => trivial
    | some p =>
      obtain ⟨da, sa⟩ := p
      dsimp only
      have hperm : t.Perm (l'.erase a) :=
        (hp.trans (List.perm_cons_erase hal')).cons_inv
      have hst : List.Sorted keyLE t := (List.sorted_cons.mp hsl).2
      have hse : List.Sorted keyLE (l'.erase a) :=
        List.Pairwise.sublist (List.erase_sublist a l') hsl'
      exact resEquiv_consOut _ (ih (l'.erase a) sa hperm hst hse)

/-! ## The run succeeds when every referenced station is in the catalog -/

theorem assignFull_isSome (gss : List GroundStation) :
    ∀ (l : List ContactWindow) (s : Sched),
      (∀ w ∈ l, lookupSched s w.ground_station_id ≠ none ∧
        capacityOf gss w.ground_station_id ≠ none) →
      assignFull gss l s ≠ none := by
  intro l
  induction l with
  | nil =>
    intro s _
    rw [assignFull_nil]
    simp
  | cons c rest ih =>
    intro s hcov
    rw [assignFull_cons]
    cases hs : assignStep gss s c with
    | none =>
      rw [assignStep_none_iff] at hs
      obtain ⟨h1, h2⟩ := hcov c (List.mem_cons_self c rest)
      rcases hs with hs | hs
      · exact absurd hs h1
      · exact absurd hs h2
    | some p =>
      obtain ⟨b, sch1⟩ := p
      dsimp only
      have hcov1 : ∀ w ∈ rest, lookupSched sch1 w.ground_station_id ≠ none ∧
          capacityOf gss w.ground_station_id ≠ none := by
        intro w hw
        obtain ⟨h1, h2⟩ := hcov w (List.mem_cons_of_mem c hw)
        refine ⟨?_, h2⟩
        obtain ⟨existing, cap, hlk, hcap, hbr⟩ := assignStep_some_inv hs
        rcases hbr with ⟨_, _, hupd⟩ | ⟨_, _, hsame⟩
        · subst hupd
          rw [lookupSched_updateSched]
          by_cases hg : c.ground_station_id = w.ground_station_id
          · rw [if_pos hg]
            intro hcontra
            cases he : lookupSched s w.ground_station_id with
            | none => exact h1 he
            | some l0 => rw [he] at hcontra; simp at hcontra
          · rw [if_neg hg]
            exact h1
        · subst hsame
          exact h1
      have hne := ih sch1 hcov1
      cases hr : assignFull gss rest sch1 with
      | none => exact absurd hr hne
      | some q => simp [consOut, hr]

theorem coverage_lookup (gss : List GroundStation) (gid : String)
    (h : ∃ g ∈ gss, g.id = gid) :
    lookupSched (initSched gss) gid ≠ none ∧ capacityOf gss gid ≠ none := by
  induction gss with
  | nil =>
    obtain ⟨g, hg, _⟩ := h
    exact absurd hg (List.not_mem_nil g)
  | cons g0 rest ih =>
    by_cases hg0 : g0.id = gid
    · constructor
      · simp [initSched, lookupSched, hg0]
      · simp [capacityOf, hg0]
    · obtain ⟨g, hgmem, hgid⟩ := h
      have hgrest : g ∈ rest := by
        rcases List.mem_cons.mp hgmem with hh | hh
        · rw [hh] at hgid
          exact absurd hgid hg0
        · exact hh
      have hrec := ih ⟨g, hgrest, hgid⟩
      constructor
      · simp only [initSched, List.map, lookupSched, if_neg hg0]
        exact hrec.1
      · simp only [capacityOf, if_neg hg0]
        exact hrec.2

/-! ## C3: permutation invariance of the scheduling outcome -/

/-- C3: for every station catalog covering the referenced station ids, any
permutation of the input window sequence leaves the scheduling outcome
unchanged: both runs of assign_contacts succeed and produce outputs that are
permutations of each other, so every window (with its full record) receives
the same assigned value whatever the pre-sort order. -/
theorem assign_contacts_perm_invariant (ws ws' : List ContactWindow)
    (gss : List GroundStation) (hp : ws.Perm ws')
    (hcov : ∀ w ∈ ws, ∃ g ∈ gss, g.id = w.ground_station_id) :
    ∃ out out', assign_contacts ws gss = some out ∧ assign_contacts ws' gss = some out' ∧
      out.Perm out' := by
  have hperm : (List.insertionSort keyLE ws).Perm (List.insertionSort keyLE ws') :=
    (List.perm_insertionSort keyLE ws).trans (hp.trans (List.perm_insertionSort keyLE ws').symm)
  have hres := assignFull_perm_sorted gss (List.insertionSort keyLE ws)
    (List.insertionSort keyLE ws') (initSched gss) hperm
    (List.sorted_insertionSort keyLE ws) (List.sorted_insertionSort keyLE ws')
  have hsome : assignFull gss (List.insertionSort keyLE ws) (initSched gss) ≠ none := by
    apply assignFull_isSome
    intro w hw
    exact coverage_lookup gss w.ground_station_id
      (hcov w ((List.perm_insertionSort keyLE ws).subset hw))
  cases r1 : assignFull gss (List.insertionSort keyLE ws) (initSched gss) with
  | none => exact absurd r1 hsome
  | some q1 =>
    obtain ⟨o1, f1⟩ := q1
    cases r2 : assignFull gss (List.insertionSort keyLE ws') (initSched gss) with
    | none => rw [r1, r2] at hres; exact False.elim hres
    | some q2 =>
      obtain ⟨o2, f2⟩ := q2
      rw [r1, r2] at hres
      obtain ⟨ho, _⟩ := hres
      refine ⟨o1, o2, ?_, ?_, ho⟩
      · unfold assign_contacts
        rw [r1]
        rfl
      · unfold assign_contacts
        rw [r2]
        rfl

/-- Witness for C3 at the concrete permuted inputs [wP1, wP2] and
[wP2, wP1] with catalog [gA]. -/
theorem assign_contacts_perm_invariant_witness :
    ∃ out out', assign_contacts [wP1, wP2] [gA] = some out ∧
      assign_contacts [wP2, wP1] [gA] = some out' ∧ out.Perm out' :=
  assign_contacts_perm_invariant [wP1, wP2] [wP2, wP1] [gA]
    (List.Perm.swap wP2 wP1 []) (by decide)

/-! ## Range of the float modulo -/

theorem fmod_nonneg (x y : Rat) (hy : 0 < y) : 0 ≤ fmod x y := by
  unfold fmod
  have hy' : y ≠ 0 := ne_of_gt hy
  have h1 : ((⌊x / y⌋ : Int) : Rat) ≤ x / y := Int.floor_le (x / y)
  have h2 : y * ((⌊x / y⌋ : Int) : Rat) ≤ y * (x / y) :=
    mul_le_mul_of_nonneg_left h1 (le_of_lt hy)
  have h3 : y * (x / y) = x := by field_simp
  linarith

theorem fmod_lt (x y : Rat) (hy : 0 < y) : fmod x y < y := by
  unfold fmod
  have hy' : y ≠ 0 := ne_of_gt hy
  have h1 : x / y < ((⌊x / y⌋ : Int) : Rat) + 1 := Int.lt_floor_add_one (x / y)
  have h2 : y * (x / y) < y * (((⌊x / y⌋ : Int) : Rat) + 1) :=
    mul_lt_mul_of_pos_left h1 hy
  have h3 : y * (x / y) = x := by field_simp
  rw [mul_add, mul_one] at h2
  linarith

/-! ## Bounds of the simulated position in the exact-arithmetic idealisation -/

/-- In the exact-arithmetic idealisation of the position simulator, every
successful run satisfies -60 <= lat <= 60 and -180 <= lon < 180: the
latitude is a sine scaled by 60 and the longitude an exact modulo into
[0, 360) shifted down by 180.  This is a fact about the idealisation only:
the floating-point program can emit lon equal to exactly 180 when the float
modulo rounds up to its modulus (see sim_position_float_rounding_input), so
the strict upper bound is NOT a theorem of the program. -/
theorem sim_position_bounds (op : Int) (t : Timestamp) (sid : Option String) (k : Int)
    (hop : 0 < op) (hid : offsetOfSatId sid = Except.ok k) :
    ∃ lat lon, simulate_satellite_position op t sid = Except.ok (lat, lon) ∧
      -60 ≤ lat ∧ lat ≤ 60 ∧ -180 ≤ lon ∧ lon < 180 := by
  have hop0 : ¬ op = 0 := by omega
  unfold simulate_satellite_position
  rw [hid]
  dsimp only
  rw [if_neg hop0]
  refine ⟨_, _, rfl, ?_, ?_, ?_, ?_⟩
  · have h1 := Real.neg_one_le_sin
      (((fmod (360 * (((t.minute : Int) + (t.hour : Int) * 60 + k : Int) : Rat) / (op : Rat))
        360 : Rat) : Real) * Real.pi / 180)
    linarith
  · have h1 := Real.sin_le_one
      (((fmod (360 * (((t.minute : Int) + (t.hour : Int) * 60 + k : Int) : Rat) / (op : Rat))
        360 : Rat) : Real) * Real.pi / 180)
    linarith
  · have h1 := fmod_nonneg
      ((fmod (360 * (((t.minute : Int) + (t.hour : Int) * 60 + k : Int) : Rat) / (op : Rat))
        360) - 180) 360 (by norm_num)
    linarith
  · have h1 := fmod_lt
      ((fmod (360 * (((t.minute : Int) + (t.hour : Int) * 60 + k : Int) : Rat) / (op : Rat))
        360) - 180) 360 (by norm_num)
    linarith

/-- The idealised bounds instantiated at orbit period 90, timestamp 01:30
and the well-formed identifier SAT-5. -/
theorem sim_position_bounds_witness :
    ∃ lat lon, simulate_satellite_position 90 ⟨1, 30⟩ (some "SAT-5") = Except.ok (lat, lon) ∧
      -60 ≤ lat ∧ lat ≤ 60 ∧ -180 ≤ lon ∧ lon < 180 :=
  sim_position_bounds 90 ⟨1, 30⟩ (some "SAT-5") 5 (by decide) (by rfl)

/-! ## C7: which identifiers fail -/

/-- C8 (the code at the failing input): the source validates nothing about
orbit_period; for the negative period -90 the float modulo still lands in
[0, 360) and simulate_satellite_position silently returns a position, never
any error, contradicting the required fail-fast behaviour (only the exact
value 0 raises, and then as a bare ZeroDivisionError). -/
theorem sim_position_negative_period_silent :
    ∀ e : PosError, simulate_satellite_position (-90) ⟨1, 0⟩ (some "SAT-1") ≠
      Except.error e := by
  intro e
  unfold simulate_satellite_position
  have h1 : offsetOfSatId (some "SAT-1") = Except.ok 1 := by rfl
  rw [h1]
  dsimp only
  rw [if_neg (by decide : ¬ (-90 : Int) = 0)]
  exact fun hcontra => Except.noConfusion hcontra

/-! ## C6: the strict longitude bound fails on the floating-point program -/

theorem fmod_eq_self {x y : Rat} (h0 : 0 ≤ x) (h1 : x < y) : fmod x y = x := by
  unfold fmod
  have hy : 0 < y := lt_of_le_of_lt h0 h1
  have hfl : ⌊x / y⌋ = 0 := by
    rw [Int.floor_eq_zero_iff]
    exact Set.mem_Ico.mpr ⟨div_nonneg h0 hy.le, (div_lt_one hy).mpr h1⟩
  rw [hfl]
  simp

theorem fmod_neg_small {x y : Rat} (h0 : -y < x) (h1 : x < 0) (hy : 0 < y) :
    fmod x y = x + y := by
  unfold fmod
  have hfl : ⌊x / y⌋ = -1 := by
    rw [Int.floor_eq_iff]
    constructor
    · push_cast
      rw [le_div_iff₀ hy]
      linarith
    · push_cast
      calc x / y < 0 := div_neg_of_neg_of_pos h1 hy
        _ ≤ -1 + 1 := by norm_num
  rw [hfl]
  push_cast
  ring

theorem lon_eq_of_lt (x : Rat) (h0 : 0 ≤ x) (h1 : x < 180) :
    fmod (fmod x 360 - 180) 360 - 180 = x := by
  rw [fmod_eq_self h0 (by linarith)]
  rw [fmod_neg_small (by linarith) (by linarith) (by norm_num)]
  ring

/-- C6: the program does NOT satisfy the strict bound lon < 180 for every
positive orbit period.  At the failing input orbit_period = 10 to the 16
plus 1, timestamp 00:00 and identifier SAT-5000000000000000, the exact value
of the longitude is 180 - 180 / (10 pow 16 + 1): strictly below 180, but by
less than 1 / 2 pow 44, one double ulp at magnitude 360.  The CPython float
modulo first rounds the angle to the double 180 - 2 pow -45, and the sign
adjustment of (angle - 180) % 360 then computes the rounded sum
-2 pow -45 + 360, whose nearest double is 360.0 itself, so the program
returns lon == 180.0 exactly, violating the claimed lon < 180.  This theorem
evaluates the embedding at the failing input and pins the exact value inside
that final rounding gap; the idealised bounds themselves are
sim_position_bounds. -/
theorem sim_position_float_rounding_input :
    ∃ p, simulate_satellite_position (10 ^ 16 + 1) ⟨0, 0⟩
        (some "SAT-5000000000000000") = Except.ok p ∧
      p.2 = 180 - 180 / (10 ^ 16 + 1) ∧
      p.2 < 180 ∧
      (180 : Rat) - 1 / 2 ^ 44 < p.2 := by
  have hoff : offsetOfSatId (some "SAT-5000000000000000") =
      Except.ok 5000000000000000 := by rfl
  unfold simulate_satellite_position
  rw [hoff]
  dsimp only
  rw [if_neg (by norm_num : ¬ (10 ^ 16 + 1 : Int) = 0)]
  have hD : ((10 : Rat) ^ 16 + 1) ≠ 0 := by positivity
  refine ⟨_, rfl, ?_, ?_, ?_⟩
  all_goals rw [lon_eq_of_lt]
  · push_cast
    field_simp
    norm_num
  · push_cast
    positivity
  · push_cast
    rw [div_lt_iff₀ (by positivity)]
    norm_num
  · push_cast
    rw [div_lt_iff₀ (by positivity)]
    norm_num
  · push_cast
    positivity
  · push_cast
    rw [div_lt_iff₀ (by positivity)]
    norm_num
  · push_cast
    rw [lt_div_iff₀ (by positivity)]
    norm_num
  · push_cast
    positivity
  · push_cast
    rw [div_lt_iff₀ (by positivity)]
    norm_num

end FleetCast
